import Mathlib

/-!
Shallow embedding of the casino-backoffice ledger, commission engine,
stats aggregator and report scheduler (`src/models/User.js`,
`src/models/AgentStats.js`, `src/services/commissionService.js`,
`src/services/reportService.js`).

Monetary values are rationals; every Mongoose schema setter
`v => Math.round(v * 100) / 100` is made explicit as `round2`, and every
`save()` runs the schema validators (`credit: min 0`, transaction
`amount: min 0.01`) explicitly.  Persistence is explicit state passing:
each operation returns its outcome together with the store as committed
when the call returns.
-/

/-- JS `Math.round(v * 100) / 100`, the 2-decimal rounding applied by every
monetary schema setter.  Mathlib `round x = ⌊x + 1/2⌋` agrees with JS
`Math.round` (half rounds toward +∞) on exact rationals. -/
def round2 (q : ℚ) : ℚ := (round (q * 100) : ℤ) / 100

/-- An exact multiple of 1/100: a well-formed 2-decimal money value, which is
what every stored monetary field holds after its setter has run. -/
def isMoney (q : ℚ) : Prop := (q * 100).den = 1

instance (q : ℚ) : Decidable (isMoney q) := by
  unfold isMoney
  infer_instance

theorem isMoney_iff (q : ℚ) : isMoney q ↔ ∃ n : ℤ, q = (n : ℚ) / 100 := by
  constructor
  · intro h
    refine ⟨(q * 100).num, ?_⟩
    have h2 : ((q * 100).num : ℚ) = q * 100 := by
      conv_rhs => rw [← Rat.num_div_den (q * 100)]
      rw [h]
      simp
    rw [h2]
    ring
  · rintro ⟨n, rfl⟩
    unfold isMoney
    have : (n : ℚ) / 100 * 100 = (n : ℚ) := by ring
    rw [this]
    exact Rat.den_intCast n

theorem round2_money (q : ℚ) (h : isMoney q) : round2 q = q := by
  rcases (isMoney_iff q).1 h with ⟨n, rfl⟩
  unfold round2
  have h1 : (n : ℚ) / 100 * 100 = (n : ℚ) := by ring
  rw [h1, round_intCast]

theorem isMoney_round2 (q : ℚ) : isMoney (round2 q) := by
  rw [isMoney_iff]
  exact ⟨round (q * 100), rfl⟩

theorem isMoney_add {a b : ℚ} (ha : isMoney a) (hb : isMoney b) :
    isMoney (a + b) := by
  rcases (isMoney_iff a).1 ha with ⟨m, rfl⟩
  rcases (isMoney_iff b).1 hb with ⟨n, rfl⟩
  rw [isMoney_iff]
  exact ⟨m + n, by push_cast; ring⟩

theorem isMoney_neg {a : ℚ} (ha : isMoney a) : isMoney (-a) := by
  rcases (isMoney_iff a).1 ha with ⟨m, rfl⟩
  rw [isMoney_iff]
  exact ⟨-m, by push_cast; ring⟩

theorem isMoney_sub {a b : ℚ} (ha : isMoney a) (hb : isMoney b) :
    isMoney (a - b) := by
  have := isMoney_add ha (isMoney_neg hb)
  simpa [sub_eq_add_neg] using this

theorem isMoney_zero : isMoney 0 := by
  rw [isMoney_iff]
  exact ⟨0, by norm_num⟩

theorem money_pos_ge {a : ℚ} (ha : isMoney a) (hpos : 0 < a) : 1 / 100 ≤ a := by
  rcases (isMoney_iff a).1 ha with ⟨n, rfl⟩
  have h100 : (0 : ℚ) < 100 := by norm_num
  have h0 : (0 : ℚ) < (n : ℚ) := by
    have h := (lt_div_iff₀ h100).1 hpos
    simpa using h
  have h1 : (1 : ℚ) ≤ (n : ℚ) := by
    have hz : (0 : ℤ) < n := by exact_mod_cast h0
    have ho : (1 : ℤ) ≤ n := hz
    exact_mod_cast ho
  gcongr

/-- The `User` document of `src/models/User.js`: an account with a role
(`superadmin` | `agent` | `member`), a 2-decimal non-negative credit balance
and an optional parent reference. -/
structure User where
  id : Nat
  username : String
  role : String
  credit : ℚ
  parent : Option Nat
  deriving Repr, DecidableEq

/-- The `Transaction` document: immutable record of one balance change. -/
structure Transaction where
  user : Nat
  amount : ℚ
  type : String
  oldCredit : ℚ
  newCredit : ℚ
  adjustedBy : Nat
  description : String
  createdAt : ℤ
  deriving Repr, DecidableEq

/-- The `credit` setter of the user schema: every assignment to `credit`
passes through `Math.round(v * 100) / 100`. -/
def setCredit (u : User) (v : ℚ) : User := { u with credit := round2 v }

/-- `userSchema.methods.updateCredit` of `src/models/User.js`.

The in-memory mutation either succeeds or throws (`Insufficient credit`,
`Invalid credit type`); then `this.save()` runs the `credit: min 0`
validator; then the `Transaction` is built (its setters round `amount`,
`oldCredit`, `newCredit`) and `transaction.save()` runs the
`amount: min 0.01` validator.  The result is
`(outcome, persisted user, persisted transaction log)`: a throw before the
first save leaves both unchanged, a throw between the two saves leaves the
user committed but the log unchanged. -/
def updateCredit (u : User) (log : List Transaction) (amount : ℚ) (ty : String)
    (adjustedBy : Nat) (description : String) (now : ℤ) :
    Except String (User × Transaction) × User × List Transaction :=
  let oldCredit := u.credit
  let mutated : Except String User :=
    if ty = "add" then .ok (setCredit u (u.credit + amount))
    else if ty = "deduct" then
      if u.credit < amount then .error "Insufficient credit"
      else .ok (setCredit u (u.credit - amount))
    else .error "Invalid credit type"
  match mutated with
  | .error e => (.error e, u, log)
  | .ok u' =>
      if u'.credit < 0 then (.error "User validation failed", u, log)
      else
        let t : Transaction :=
          ⟨u.id, round2 amount, ty, round2 oldCredit, round2 u'.credit,
            adjustedBy, description, now⟩
        if t.amount < 1 / 100 then (.error "Transaction validation failed", u', log)
        else (.ok (u', t), u', t :: log)

/-- One entry of `AgentStats.commissionHistory` (`src/models/AgentStats.js`);
its `amount` setter rounds to 2 decimals. -/
structure CommissionEntry where
  amount : ℚ
  date : ℤ
  description : String
  deriving Repr, DecidableEq

/-- The `AgentStats` document: one per agent (`agent` is unique), rollup
counters plus the commission state.  All monetary fields have `round2`
setters; `commissionRate` defaults to 0.05 and is bounded [0, 0.2]. -/
structure AgentStats where
  agent : Nat
  totalMembers : Nat
  activeMembers : Nat
  totalCredit : ℚ
  commissionRate : ℚ
  totalCommission : ℚ
  commissionHistory : List CommissionEntry
  lastUpdated : ℤ
  deriving Repr, DecidableEq

/-- One element of `DailyReport.agentReports`. -/
structure AgentReport where
  agent : Nat
  members : Nat
  creditMovement : ℚ
  commission : ℚ
  deriving Repr, DecidableEq

/-- The `DailyReport` document (`src/models/DailyReport.js`): one per
calendar day (`date` is unique), with `round2` setters on the monetary
fields of the report and of each agent sub-report. -/
structure DailyReport where
  date : ℤ
  totalMembers : Nat
  activeMembers : Nat
  totalCreditMovement : ℚ
  totalCommission : ℚ
  agentReports : List AgentReport
  systemNotes : String
  deriving Repr, DecidableEq

/-- The persistent store: the four Mongo collections. -/
structure DB where
  users : List User
  txns : List Transaction
  stats : List AgentStats
  reports : List DailyReport
  deriving Repr, DecidableEq

/-- `User.findById`. -/
def findUser (db : DB) (uid : Nat) : Option User :=
  db.users.find? (fun u => u.id = uid)

/-- `AgentStats.findOne({ agent: agentId })`. -/
def findStats (db : DB) (aid : Nat) : Option AgentStats :=
  db.stats.find? (fun s => s.agent = aid)

/-- Committing a saved user document back into the collection. -/
def setUser (u : User) : List User → List User :=
  List.map (fun x => if x.id = u.id then u else x)

/-- Committing a saved `AgentStats` document back into the collection. -/
def setStats (s : AgentStats) : List AgentStats → List AgentStats :=
  List.map (fun x => if x.agent = s.agent then s else x)

/-- The `PUT /:id/credit` core path of `src/routes/memberRoutes.js`: look the
member up, then run `updateCredit`; `AccountNotFound` when the id resolves to
no account.  (The route also pre-checks insufficient credit, which
`updateCredit` re-checks itself.) -/
def adjust (db : DB) (uid : Nat) (amount : ℚ) (ty : String) (adjBy : Nat)
    (description : String) (now : ℤ) : Except String (User × Transaction) × DB :=
  match findUser db uid with
  | none => (.error "Member not found", db)
  | some u =>
      let r := updateCredit u db.txns amount ty adjBy description now
      (r.1, { db with users := setUser r.2.1 db.users, txns := r.2.2 })

/-- `calculateCommission` of `src/services/commissionService.js`.

Looks up the agent's `AgentStats` (populated with the agent user); absent
stats or agent is a soft no-op returning 0.  The raw product
`betAmount * commissionRate` is NOT rounded; it is compared with 0, credited
through the agent's `credit` setter (which rounds the new balance), added to
`totalCommission` through its setter, pushed to `commissionHistory` through
the entry `amount` setter, and returned raw.  `agent.save()` runs the
`credit: min 0` validator; any error is caught and yields 0 with the store
as committed so far (no failing path is reachable from non-negative stored
values). -/
def calculateCommission (db : DB) (agentId : Nat) (betAmount : ℚ)
    (description : String) (now : ℤ) : ℚ × DB :=
  match findStats db agentId, findUser db agentId with
  | some st, some agent =>
      let commission := betAmount * st.commissionRate
      if commission ≤ 0 then (0, db)
      else
        let agent' := setCredit agent (agent.credit + commission)
        if agent'.credit < 0 then (0, db)
        else
          let st' : AgentStats :=
            { st with
              totalCommission := round2 (st.totalCommission + commission),
              commissionHistory := st.commissionHistory ++
                [⟨round2 commission, now, description ++ ": " ++ toString betAmount⟩] }
          (commission, { db with users := setUser agent' db.users,
                                 stats := setStats st' db.stats })
  | _, _ => (0, db)

/-- `User.find({ parent: agentId, role: 'member' })`: the agent's direct
member accounts. -/
def membersOf (db : DB) (agentId : Nat) : List User :=
  db.users.filter (fun u => u.parent = some agentId ∧ u.role = "member")

/-- `updateAgentStats` of `src/services/commissionService.js`: recompute the
rollup counters of one agent; absent stats is a no-op.  Writes
`totalMembers`, `activeMembers`, `totalCredit` (through its rounding setter)
and `lastUpdated` on the found document and saves it. -/
def updateAgentStats (db : DB) (agentId : Nat) (now : ℤ) : DB :=
  match findStats db agentId with
  | none => db
  | some st =>
      let members := membersOf db agentId
      let st' : AgentStats :=
        { st with
          totalMembers := members.length,
          activeMembers := (members.filter (fun u => 0 < u.credit)).length,
          totalCredit := round2 ((members.map User.credit).sum),
          lastUpdated := now }
      { db with stats := setStats st' db.stats }

/-- `Transaction.find({ createdAt: { $gte: lo, $lt: hi } })`: the half-open
window of the daily report run. -/
def windowTxns (db : DB) (lo hi : ℤ) : List Transaction :=
  db.txns.filter (fun t => lo ≤ t.createdAt ∧ t.createdAt < hi)

/-- A dynamically-typed JS value as it occurs in the cron's member filter:
`User.find(...).distinct('_id')` yields ObjectId values while
`t.user.toString()` yields a string; `Array.includes` compares them with
SameValueZero, under which values of different types are never equal. -/
inductive JsVal where
  | objectId (id : Nat)
  | str (s : String)
  deriving Repr, DecidableEq

/-- `User.find({ parent: agent, role: 'member' }).distinct('_id')`: the
agent's direct member ids, as the ObjectId values the source holds. -/
def memberObjectIds (db : DB) (agentId : Nat) : List JsVal :=
  (membersOf db agentId).map (fun u => JsVal.objectId u.id)

/-- The per-agent movement computed inside the daily cron loop of
`src/services/reportService.js`:
`transactions.filter(t => memberIds.includes(t.user.toString()))` followed
by a sum of the raw `amount`s.  The `includes` compares the ObjectId
elements of `memberIds` with the STRING `t.user.toString()`, so the filter
never matches and the sum is always over the empty list.  (The transaction
`type` is also ignored; amounts would count positively in either
direction.) -/
def movementOf (db : DB) (lo hi : ℤ) (agentId : Nat) : ℚ :=
  (((windowTxns db lo hi).filter
      (fun t => (memberObjectIds db agentId).contains
        (JsVal.str (toString t.user)))).map
    Transaction.amount).sum

/-- `User.find({ role: 'agent' })`. -/
def agentsOf (db : DB) : List User :=
  db.users.filter (fun u => u.role = "agent")

/-- The raw sub-report the cron loop pushes for one agent:
`commission = creditMovement * 0.01` with the flat rate constant, unrounded
until stored. -/
def agentReportOf (db : DB) (lo hi : ℤ) (a : User) : AgentReport :=
  ⟨a.id, (memberObjectIds db a.id).length, movementOf db lo hi a.id,
    movementOf db lo hi a.id * (1 / 100)⟩

/-- `AgentStats.findOneAndUpdate({agent}, {$inc: {totalCommission}, $set:
{lastUpdated}}, {upsert: true})` of the cron loop: `$inc` on the matched
document, or insert a fresh document with schema defaults. -/
def incStats (aid : Nat) (c : ℚ) (now : ℤ) (stats : List AgentStats) :
    List AgentStats :=
  if stats.any (fun s => s.agent = aid) then
    stats.map (fun s =>
      if s.agent = aid then
        { s with totalCommission := s.totalCommission + c, lastUpdated := now }
      else s)
  else stats ++ [⟨aid, 0, 0, 0, round2 (1 / 20), c, [], now⟩]

/-- The `DailyReport` document assembled by one cron run over the window
`[lo, hi)`: totals over all window transactions, member counts over all
member accounts, sub-reports per agent, with the schema's `round2` setters
applied to every monetary field at store time, and a `systemNotes` string
embedding the generation time. -/
def computeDailyReport (db : DB) (lo hi now : ℤ) : DailyReport :=
  let reports := (agentsOf db).map (agentReportOf db lo hi)
  { date := lo,
    totalMembers := (db.users.filter (fun u => u.role = "member")).length,
    activeMembers :=
      (db.users.filter (fun u => u.role = "member" ∧ 0 < u.credit)).length,
    totalCreditMovement :=
      round2 (((windowTxns db lo hi).map Transaction.amount).sum),
    totalCommission := round2 ((reports.map AgentReport.commission).sum),
    agentReports := reports.map (fun ar =>
      { ar with creditMovement := round2 ar.creditMovement,
                commission := round2 ar.commission }),
    systemNotes := "Auto-generated report by system at " ++ toString now }

/-- `DailyReport.findOneAndUpdate({date}, ..., {upsert: true})`: replace the
first report with the same date, or append. -/
def upsertReport (r : DailyReport) : List DailyReport → List DailyReport
  | [] => [r]
  | x :: xs => if x.date = r.date then r :: xs else x :: upsertReport r xs

/-- One run of the daily cron job of `src/services/reportService.js` over
the window `[lo, hi)` whose report is keyed by `lo`: upsert the day's
report and apply the per-agent `$inc` of `totalCommission`. -/
def runDaily (db : DB) (lo hi now : ℤ) : DB :=
  { db with
    stats := (agentsOf db).foldl
      (fun st a => incStats a.id (movementOf db lo hi a.id * (1 / 100)) now st)
      db.stats,
    reports := upsertReport (computeDailyReport db lo hi now) db.reports }

/-- Spec-side id set, written from the spec's words for claim C6: the
agent's direct member account ids, with "transactions belonging to those
members" read as actual id membership. -/
def memberIdsOf (db : DB) (agentId : Nat) : List Nat :=
  (membersOf db agentId).map User.id

/-- Spec-side definition, written from the spec's words for claim C6: the
SIGNED sum of the agent's member transactions in the window — `add` counted
positive, `deduct` counted negative. -/
def specSignedMovement (db : DB) (lo hi : ℤ) (agentId : Nat) : ℚ :=
  (((windowTxns db lo hi).filter
      (fun t => (memberIdsOf db agentId).contains t.user)).map
    (fun t => if t.type = "add" then t.amount else -t.amount)).sum

theorem round2_money_add {a b : ℚ} (ha : isMoney a) (hb : isMoney b) :
    round2 (a + b) = a + b :=
  round2_money _ (isMoney_add ha hb)

theorem round2_money_sub {a b : ℚ} (ha : isMoney a) (hb : isMoney b) :
    round2 (a - b) = a - b :=
  round2_money _ (isMoney_sub ha hb)

/-- C1: for every account and every `updateCredit` call that succeeds, the
resulting balance equals the prior balance plus the amount for `add` or
minus the amount for `deduct`, exact to 2 decimals, and exactly one
`Transaction` is created whose `oldCredit` is the prior balance and whose
`newCredit` is the resulting balance; on failure, the balance and the
transaction log are unchanged.  The boundary constraints of the operation
(amount positive with at most 2 decimals, balance a stored 2-decimal value)
are the hypotheses. -/
theorem updateCredit_ledger_contract (u : User) (log : List Transaction)
    (amount : ℚ) (ty : String) (adjBy : Nat) (d : String) (now : ℤ)
    (hc : isMoney u.credit) (ha : isMoney amount) (hpos : 0 < amount) :
    (∀ m t, (updateCredit u log amount ty adjBy d now).1 = .ok (m, t) →
        m.credit = (if ty = "add" then u.credit + amount else u.credit - amount) ∧
        t.oldCredit = u.credit ∧ t.newCredit = m.credit ∧
        (updateCredit u log amount ty adjBy d now).2 = (m, t :: log)) ∧
    (∀ e, (updateCredit u log amount ty adjBy d now).1 = .error e →
        (updateCredit u log amount ty adjBy d now).2 = (u, log)) := by
  have hra : round2 amount = amount := round2_money _ ha
  have hrc : round2 u.credit = u.credit := round2_money _ hc
  have hnlt : ¬ (amount < 1 / 100) := not_lt.2 (money_pos_ge ha hpos)
  have hnlt2 : ¬ (amount < (100 : ℚ)⁻¹) := by
    rw [← one_div]
    exact hnlt
  by_cases hty : ty = "add"
  · subst hty
    by_cases hneg : u.credit + amount < 0
    · constructor
      · intro m t h
        simp [updateCredit, setCredit, round2_money_add hc ha, hneg] at h
      · intro e h
        simp [updateCredit, setCredit, round2_money_add hc ha, hneg]
    · constructor
      · intro m t h
        simp [updateCredit, setCredit, round2_money_add hc ha, hneg, hra,
          hnlt, hnlt2] at h
        obtain ⟨hm, ht⟩ := h
        subst hm
        subst ht
        refine ⟨by simp, by simp [hrc], by simp [round2_money_add hc ha], ?_⟩
        simp [updateCredit, setCredit, round2_money_add hc ha, hneg, hra, hnlt, hnlt2]
      · intro e h
        simp [updateCredit, setCredit, round2_money_add hc ha, hneg, hra,
          hnlt, hnlt2] at h
  · by_cases hty2 : ty = "deduct"
    · subst hty2
      by_cases hlt : u.credit < amount
      · constructor
        · intro m t h
          simp [updateCredit, setCredit, hlt] at h
        · intro e h
          simp [updateCredit, setCredit, hlt]
      · have hneg : ¬ (u.credit - amount < 0) :=
          not_lt.2 (sub_nonneg.2 (not_lt.1 hlt))
        constructor
        · intro m t h
          simp [updateCredit, setCredit, round2_money_sub hc ha, hlt, hneg,
            hra, hnlt, hnlt2] at h
          obtain ⟨hm, ht⟩ := h
          subst hm
          subst ht
          refine ⟨by simp [hty], by simp [hrc], by simp [round2_money_sub hc ha], ?_⟩
          simp [updateCredit, setCredit, round2_money_sub hc ha, hlt, hneg,
            hra, hnlt, hnlt2]
        · intro e h
          simp [updateCredit, setCredit, round2_money_sub hc ha, hlt, hneg,
            hra, hnlt, hnlt2] at h
    · constructor
      · intro m t h
        simp [updateCredit, hty, hty2] at h
      · intro e h
        simp [updateCredit, hty, hty2]

def w1User : User := ⟨1, "m1", "member", 50, some 7⟩

theorem w1_eval : (updateCredit w1User [] 40 "add" 7 "d" 0).1 =
    .ok (⟨1, "m1", "member", 90, some 7⟩, ⟨1, 40, "add", 50, 90, 7, "d", 0⟩) := by
  simp only [updateCredit, w1User, setCredit, round2, if_pos rfl]
  norm_num [round_eq]

theorem updateCredit_ledger_contract_witness :
    isMoney (w1User.credit) ∧ isMoney (40 : ℚ) ∧ (0 : ℚ) < 40 ∧
    (⟨1, "m1", "member", 90, some 7⟩ : User).credit =
      (if "add" = "add" then w1User.credit + 40 else w1User.credit - 40) ∧
    (⟨1, 40, "add", 50, 90, 7, "d", 0⟩ : Transaction).oldCredit = w1User.credit ∧
    (updateCredit w1User [] 40 "add" 7 "d" 0).2 =
      (⟨1, "m1", "member", 90, some 7⟩, [⟨1, 40, "add", 50, 90, 7, "d", 0⟩]) := by
  have hm : isMoney w1User.credit := (isMoney_iff _).2 ⟨5000, by norm_num [w1User]⟩
  have ha : isMoney (40 : ℚ) := (isMoney_iff _).2 ⟨4000, by norm_num⟩
  have hp : (0 : ℚ) < 40 := by norm_num
  have h := (updateCredit_ledger_contract w1User [] 40 "add" 7 "d" 0 hm ha hp).1
    _ _ w1_eval
  exact ⟨hm, ha, hp, h.1, h.2.1, h.2.2.2⟩

/-- C2: whenever the account's balance is strictly below the requested
amount, `updateCredit` with type `deduct` fails with the `Insufficient
credit` error, and the persisted balance and transaction log are exactly
their pre-call values — no `Transaction` is written. -/
theorem updateCredit_insufficient (u : User) (log : List Transaction)
    (amount : ℚ) (adjBy : Nat) (d : String) (now : ℤ)
    (h : u.credit < amount) :
    updateCredit u log amount "deduct" adjBy d now =
      (.error "Insufficient credit", u, log) := by
  simp [updateCredit, h]

theorem updateCredit_insufficient_witness :
    (⟨2, "m2", "member", 5, some 7⟩ : User).credit < 6 ∧
    updateCredit ⟨2, "m2", "member", 5, some 7⟩ [] 6 "deduct" 7 "d" 0 =
      (.error "Insufficient credit", ⟨2, "m2", "member", 5, some 7⟩, []) := by
  have h : (⟨2, "m2", "member", 5, some 7⟩ : User).credit < 6 := by norm_num
  exact ⟨h, updateCredit_insufficient _ [] 6 7 "d" 0 h⟩

/-- C10: for every type other than `add` and `deduct`, `updateCredit` throws
`Invalid credit type` before any save, so the persisted balance and the
transaction log are unchanged. -/
theorem updateCredit_invalid_type (u : User) (log : List Transaction)
    (amount : ℚ) (ty : String) (adjBy : Nat) (d : String) (now : ℤ)
    (h1 : ty ≠ "add") (h2 : ty ≠ "deduct") :
    updateCredit u log amount ty adjBy d now =
      (.error "Invalid credit type", u, log) := by
  simp [updateCredit, h1, h2]

theorem updateCredit_invalid_type_witness :
    ("transfer" : String) ≠ "add" ∧ ("transfer" : String) ≠ "deduct" ∧
    updateCredit ⟨3, "m3", "member", 5, some 7⟩ [] 2 "transfer" 7 "d" 0 =
      (.error "Invalid credit type", ⟨3, "m3", "member", 5, some 7⟩, []) := by
  have h1 : ("transfer" : String) ≠ "add" := by decide
  have h2 : ("transfer" : String) ≠ "deduct" := by decide
  exact ⟨h1, h2, updateCredit_invalid_type _ [] 2 "transfer" 7 "d" 0 h1 h2⟩

/-- C5: an agent id with no `AgentStats` record makes `calculateCommission`
return 0, mutate nothing, and raise no error — a soft no-op. -/
theorem calculateCommission_no_stats (db : DB) (aid : Nat) (b : ℚ)
    (d : String) (now : ℤ) (h : findStats db aid = none) :
    calculateCommission db aid b d now = (0, db) := by
  simp [calculateCommission, h]

def w5DB : DB := ⟨[⟨9, "a9", "agent", 5, none⟩], [], [], []⟩

theorem calculateCommission_no_stats_witness :
    findStats w5DB 9 = none ∧ calculateCommission w5DB 9 3 "d" 0 = (0, w5DB) := by
  have h : findStats w5DB 9 = none := by simp [findStats, w5DB]
  exact ⟨h, calculateCommission_no_stats w5DB 9 3 "d" 0 h⟩

theorem round2_nonneg {q : ℚ} (h : 0 ≤ q) : 0 ≤ round2 q := by
  unfold round2
  have h1 : (0 : ℤ) ≤ round (q * 100) := by
    rw [round_eq, Int.floor_nonneg]
    nlinarith
  have h2 : (0 : ℚ) ≤ (round (q * 100) : ℚ) := by exact_mod_cast h1
  exact div_nonneg h2 (by norm_num)

def c4Agent : User := ⟨1, "a1", "agent", 100, none⟩

def c4Stats : AgentStats := ⟨1, 0, 0, 0, 1 / 20, 0, [], 0⟩

def c4DB : DB := ⟨[c4Agent], [], [c4Stats], []⟩

/-- C4 counterexample: with commissionRate 0.05 and baseAmount 0.30 the raw
product is 0.015, `round2` of it is 0.02, and `calculateCommission` returns
the UNROUNDED 0.015 — so the returned commission is not
`round2(baseAmount * commissionRate)` as the claim states. -/
theorem calculateCommission_not_rounded_counterexample :
    (calculateCommission c4DB 1 (3 / 10) "d" 0).1 = 3 / 200 ∧
    round2 ((3 / 10) * c4Stats.commissionRate) = 2 / 100 ∧
    ((3 : ℚ) / 200) ≠ 2 / 100 := by
  refine ⟨?_, ?_, by norm_num⟩
  · have h1 : findStats c4DB 1 = some c4Stats := by simp [findStats, c4DB, c4Stats]
    have h2 : findUser c4DB 1 = some c4Agent := by simp [findUser, c4DB, c4Agent]
    simp [calculateCommission, h1, h2, c4Stats, c4Agent, setCredit]
    norm_num [round2, round_eq]
  · norm_num [c4Stats, round2, round_eq]

/-- C4 (amended): with an `AgentStats` record present, `calculateCommission`
computes the commission as the UNROUNDED product
`baseAmount * commissionRate`; if it is ≤ 0 the call returns 0 with no
mutation; otherwise the agent's balance becomes
`round2(balance + commission)` (rounding happens at the write, not on the
commission), `totalCommission` becomes `round2(totalCommission +
commission)`, exactly one `commissionHistory` entry of `round2(commission)`
is appended, and the UNROUNDED commission is returned. -/
theorem calculateCommission_contract (db : DB) (aid : Nat) (b : ℚ)
    (d : String) (now : ℤ) (st : AgentStats) (u : User)
    (hst : findStats db aid = some st) (hu : findUser db aid = some u)
    (hnn : 0 ≤ u.credit) :
    (b * st.commissionRate ≤ 0 →
      calculateCommission db aid b d now = (0, db)) ∧
    (0 < b * st.commissionRate →
      calculateCommission db aid b d now =
        (b * st.commissionRate,
         { db with
           users := setUser
             { u with credit := round2 (u.credit + b * st.commissionRate) }
             db.users,
           stats := setStats
             { st with
               totalCommission :=
                 round2 (st.totalCommission + b * st.commissionRate),
               commissionHistory := st.commissionHistory ++
                 [⟨round2 (b * st.commissionRate), now,
                   d ++ ": " ++ toString b⟩] }
             db.stats })) := by
  constructor
  · intro hle
    simp [calculateCommission, hst, hu, hle]
  · intro hpos
    have hne : ¬ (b * st.commissionRate ≤ 0) := not_le.2 hpos
    have hnn2 : 0 ≤ u.credit + b * st.commissionRate :=
      add_nonneg hnn (le_of_lt hpos)
    have hcred : ¬ (round2 (u.credit + b * st.commissionRate) < 0) :=
      not_lt.2 (round2_nonneg hnn2)
    simp [calculateCommission, hst, hu, hne, setCredit, hcred]

theorem calculateCommission_contract_witness :
    (0 : ℚ) ≤ c4Agent.credit ∧ (0 : ℚ) < (2 / 5) * c4Stats.commissionRate ∧
    calculateCommission c4DB 1 (2 / 5) "d" 0 =
      ((2 / 5) * c4Stats.commissionRate,
       { c4DB with
         users := setUser
           { c4Agent with
             credit := round2 (c4Agent.credit + (2 / 5) * c4Stats.commissionRate) }
           c4DB.users,
         stats := setStats
           { c4Stats with
             totalCommission :=
               round2 (c4Stats.totalCommission + (2 / 5) * c4Stats.commissionRate),
             commissionHistory := c4Stats.commissionHistory ++
               [⟨round2 ((2 / 5) * c4Stats.commissionRate), 0,
                 "d" ++ ": " ++ toString (2 / 5 : ℚ)⟩] }
           c4DB.stats }) := by
  have h1 : findStats c4DB 1 = some c4Stats := by simp [findStats, c4DB, c4Stats]
  have h2 : findUser c4DB 1 = some c4Agent := by simp [findUser, c4DB, c4Agent]
  have h3 : (0 : ℚ) ≤ c4Agent.credit := by norm_num [c4Agent]
  have h4 : (0 : ℚ) < (2 / 5) * c4Stats.commissionRate := by norm_num [c4Stats]
  exact ⟨h3, h4,
    (calculateCommission_contract c4DB 1 (2 / 5) "d" 0 c4Stats c4Agent h1 h2 h3).2 h4⟩

/-- C8: `updateAgentStats` writes only the rollup fields (`totalMembers`,
`activeMembers`, `totalCredit`, `lastUpdated`): for every stats record of
the store, the record with the same agent after the call has the same
`commissionRate`, `totalCommission` and `commissionHistory`, and the other
collections are untouched.  The hypothesis is the schema's unique index on
`AgentStats.agent`. -/
theorem updateAgentStats_frame (db : DB) (aid : Nat) (now : ℤ)
    (hn : (db.stats.map AgentStats.agent).Nodup) :
    (updateAgentStats db aid now).users = db.users ∧
    (updateAgentStats db aid now).txns = db.txns ∧
    (updateAgentStats db aid now).reports = db.reports ∧
    ∀ s ∈ db.stats, ∃ s' ∈ (updateAgentStats db aid now).stats,
      s'.agent = s.agent ∧ s'.commissionRate = s.commissionRate ∧
      s'.totalCommission = s.totalCommission ∧
      s'.commissionHistory = s.commissionHistory := by
  cases hst : findStats db aid with
  | none =>
      simp only [updateAgentStats, hst]
      refine ⟨trivial, trivial, trivial, ?_⟩
      intro s hs
      exact ⟨s, hs, rfl, rfl, rfl, rfl⟩
  | some st =>
      have hmem : st ∈ db.stats := List.mem_of_find?_eq_some hst
      have hagent : st.agent = aid := by
        have h := List.find?_some hst
        simpa using h
      simp only [updateAgentStats, hst]
      refine ⟨trivial, trivial, trivial, ?_⟩
      intro s hs
      by_cases hsa : s.agent = aid
      · have hse : s = st :=
          List.inj_on_of_nodup_map hn hs hmem (by rw [hsa, hagent])
        subst hse
        refine ⟨_, List.mem_map_of_mem _ hmem, ?_⟩
        simp
      · refine ⟨_, List.mem_map_of_mem _ hs, ?_⟩
        have hne : ¬ (s.agent = st.agent) := by
          rw [hagent]
          exact hsa
        simp [hne]

def w8Stats : AgentStats := ⟨4, 2, 1, 30, 1 / 10, 7, [⟨1, 0, "h"⟩], 0⟩

def w8DB : DB := ⟨[], [], [w8Stats], []⟩

def w8After : AgentStats := ⟨4, 0, 0, 0, 1 / 10, 7, [⟨1, 0, "h"⟩], 5⟩

theorem updateAgentStats_frame_witness :
    (w8DB.stats.map AgentStats.agent).Nodup ∧
    w8After.agent = w8Stats.agent ∧
    w8After.commissionRate = w8Stats.commissionRate ∧
    w8After.totalCommission = w8Stats.totalCommission ∧
    w8After.commissionHistory = w8Stats.commissionHistory := by
  have hn : (w8DB.stats.map AgentStats.agent).Nodup := by simp [w8DB]
  have he : (updateAgentStats w8DB 4 5).stats = [w8After] := by
    have hst : findStats w8DB 4 = some w8Stats := by
      simp [findStats, w8DB, w8Stats]
    simp only [updateAgentStats, hst]
    simp [membersOf, setStats, w8DB, w8Stats, w8After]
    norm_num [round2, round_eq]
  obtain ⟨s', hsm, h1, h2, h3, h4⟩ :=
    (updateAgentStats_frame w8DB 4 5 hn).2.2.2 w8Stats (by simp [w8DB])
  rw [he] at hsm
  simp only [List.mem_singleton] at hsm
  subst hsm
  exact ⟨hn, h1, h2, h3, h4⟩

/-- Balance non-negativity: every stored account has credit ≥ 0. -/
def balancesNonneg (db : DB) : Prop := ∀ u ∈ db.users, 0 ≤ u.credit

theorem updateCredit_saved_cases (u : User) (log : List Transaction) (a : ℚ)
    (ty : String) (adjBy : Nat) (d : String) (now : ℤ) :
    (updateCredit u log a ty adjBy d now).2.1 = u ∨
    0 ≤ (updateCredit u log a ty adjBy d now).2.1.credit := by
  by_cases h1 : ty = "add"
  · by_cases h2 : round2 (u.credit + a) < 0
    · left
      simp [updateCredit, setCredit, h1, h2]
    · right
      by_cases h3 : round2 a < (100 : ℚ)⁻¹ <;>
        simp [updateCredit, setCredit, h1, h2, h3, not_lt.1 h2]
  · by_cases h4 : ty = "deduct"
    · by_cases h5 : u.credit < a
      · left
        simp [updateCredit, setCredit, h1, h4, h5]
      · by_cases h2 : round2 (u.credit - a) < 0
        · left
          simp [updateCredit, setCredit, h1, h4, h5, h2]
        · right
          by_cases h3 : round2 a < (100 : ℚ)⁻¹ <;>
            simp [updateCredit, setCredit, h1, h4, h5, h2, h3, not_lt.1 h2]
    · left
      simp [updateCredit, h1, h4]

theorem adjust_preserves_nonneg (db : DB) (uid : Nat) (a : ℚ) (ty : String)
    (adjBy : Nat) (d : String) (now : ℤ) (h : balancesNonneg db) :
    balancesNonneg (adjust db uid a ty adjBy d now).2 := by
  unfold adjust
  cases hu : findUser db uid with
  | none => simpa using h
  | some u =>
      intro x hx
      simp only [setUser, List.mem_map] at hx
      obtain ⟨y, hy, hxy⟩ := hx
      by_cases hid : y.id = (updateCredit u db.txns a ty adjBy d now).2.1.id
      · rw [if_pos hid] at hxy
        rcases updateCredit_saved_cases u db.txns a ty adjBy d now with hc | hc
        · subst hxy
          rw [hc]
          exact h u (List.mem_of_find?_eq_some hu)
        · subst hxy
          exact hc
      · rw [if_neg hid] at hxy
        subst hxy
        exact h y hy

theorem calculateCommission_preserves_nonneg (db : DB) (aid : Nat) (b : ℚ)
    (d : String) (now : ℤ) (h : balancesNonneg db) :
    balancesNonneg (calculateCommission db aid b d now).2 := by
  unfold calculateCommission
  cases hst : findStats db aid with
  | none => simpa using h
  | some st =>
      cases hu : findUser db aid with
      | none => simpa using h
      | some agent =>
          by_cases hle : b * st.commissionRate ≤ 0
          · simpa [hle] using h
          · by_cases hneg : (setCredit agent (agent.credit + b * st.commissionRate)).credit < 0
            · simpa [hle, hneg] using h
            · simp only [hle, hneg, if_neg, if_false, ite_false]
              intro x hx
              simp only [hle, hneg, if_false, setUser, List.mem_map] at hx
              obtain ⟨y, hy, hxy⟩ := hx
              by_cases hid : y.id = (setCredit agent (agent.credit + b * st.commissionRate)).id
              · rw [if_pos hid] at hxy
                subst hxy
                exact not_lt.1 hneg
              · rw [if_neg hid] at hxy
                subst hxy
                exact h y hy

theorem updateAgentStats_preserves_nonneg (db : DB) (aid : Nat) (now : ℤ)
    (h : balancesNonneg db) :
    balancesNonneg (updateAgentStats db aid now) := by
  unfold updateAgentStats
  cases hst : findStats db aid with
  | none => simpa using h
  | some st => simpa using h

/-- C3: balance non-negativity is preserved by every core operation —
`adjust` (the ledger mutation), `calculateCommission`, `updateAgentStats`
and the daily report run — starting from any store whose balances are all
non-negative. -/
theorem balances_nonneg_invariant (db : DB) (h : balancesNonneg db)
    (uid : Nat) (a : ℚ) (ty : String) (adjBy : Nat) (d : String)
    (aid : Nat) (b : ℚ) (ds : String) (now lo hi : ℤ) :
    balancesNonneg (adjust db uid a ty adjBy d now).2 ∧
    balancesNonneg (calculateCommission db aid b ds now).2 ∧
    balancesNonneg (updateAgentStats db aid now) ∧
    balancesNonneg (runDaily db lo hi now) := by
  refine ⟨adjust_preserves_nonneg db uid a ty adjBy d now h,
    calculateCommission_preserves_nonneg db aid b ds now h,
    updateAgentStats_preserves_nonneg db aid now h, ?_⟩
  intro x hx
  exact h x hx

def w3DB : DB :=
  ⟨[⟨1, "a1", "agent", 5, none⟩, ⟨2, "m1", "member", 3, some 1⟩], [],
    [⟨1, 0, 0, 0, 1 / 20, 0, [], 0⟩], []⟩

theorem balances_nonneg_invariant_witness :
    balancesNonneg w3DB ∧
    (balancesNonneg (adjust w3DB 2 1 "add" 1 "d" 0).2 ∧
     balancesNonneg (calculateCommission w3DB 1 2 "d" 0).2 ∧
     balancesNonneg (updateAgentStats w3DB 1 0) ∧
     balancesNonneg (runDaily w3DB 0 10 0)) := by
  have h : balancesNonneg w3DB := by
    intro u hu
    simp [w3DB] at hu
    rcases hu with rfl | rfl <;> norm_num
  exact ⟨h, balances_nonneg_invariant w3DB h 2 1 "add" 1 "d" 1 2 "d" 0 0 10⟩

theorem memberObjectIds_contains_str (db : DB) (agentId : Nat) (s : String) :
    (memberObjectIds db agentId).contains (JsVal.str s) = false := by
  unfold memberObjectIds
  induction membersOf db agentId with
  | nil => rfl
  | cons u us ih => simp [ih]

/-- The daily cron's member-transaction filter never matches: the ObjectId
elements of `memberIds` are never SameValueZero-equal to the string
`t.user.toString()`, so every agent's `creditMovement` is the empty sum. -/
theorem movementOf_eq_zero (db : DB) (lo hi : ℤ) (agentId : Nat) :
    movementOf db lo hi agentId = 0 := by
  unfold movementOf
  have h : ((windowTxns db lo hi).filter
      (fun t => (memberObjectIds db agentId).contains
        (JsVal.str (toString t.user)))) = [] := by
    rw [List.filter_eq_nil_iff]
    intro t ht
    rw [memberObjectIds_contains_str]
    simp
  rw [h]
  rfl

def c6Agent : User := ⟨1, "a1", "agent", 100, none⟩

def c6Member : User := ⟨2, "m1", "member", 10, some 1⟩

def c6Txn : Transaction := ⟨2, 10, "deduct", 20, 10, 1, "w", 5⟩

def c6DB : DB := ⟨[c6Agent, c6Member], [c6Txn], [], []⟩

/-- C6 counterexample: one member `deduct` transaction of amount 10 in the
window.  The claimed signed sum over the agent's member transactions is
-10, but the stored per-agent `creditMovement` is 0: the source's filter
`memberIds.includes(t.user.toString())` compares ObjectId elements with a
string, which never match, so no transaction is ever attributed to the
agent (and even with matching ids the sum would ignore the direction). -/
theorem runDaily_movement_not_signed_counterexample :
    ((runDaily c6DB 0 10 0).reports.map
        (fun r => r.agentReports.map AgentReport.creditMovement)) = [[0]] ∧
    specSignedMovement c6DB 0 10 1 = -10 ∧ ((0 : ℚ) ≠ -10) := by
  refine ⟨?_, ?_, by norm_num⟩
  · simp [runDaily, upsertReport, computeDailyReport, agentsOf, agentReportOf,
      movementOf_eq_zero, c6DB, c6Agent, c6Member]
    norm_num [round2, round_eq]
  · simp [specSignedMovement, windowTxns, memberIdsOf, membersOf, c6DB,
      c6Agent, c6Member, c6Txn]

/-- C6 (amended): the daily run's member-transaction filter compares the
ObjectId elements of `memberIds` with the string `t.user.toString()` and
never matches, so every stored per-agent sub-report has `creditMovement 0`
and `commission = round2(0 * 0.01) = 0` regardless of the window's
transactions; only the sub-report's member count is populated.  (The flat
rate is the single constant 0.01 as the claim states, but it is only ever
applied to 0.) -/
theorem runDaily_agentReports_filter_never_matches (db : DB) (lo hi now : ℤ) :
    ∀ ar ∈ (computeDailyReport db lo hi now).agentReports,
      ∃ a ∈ agentsOf db, ar.agent = a.id ∧
        ar.members = (memberObjectIds db a.id).length ∧
        ar.creditMovement = 0 ∧ ar.commission = 0 := by
  have hz : round2 (0 : ℚ) = 0 := round2_money 0 isMoney_zero
  intro ar har
  simp only [computeDailyReport, List.map_map, List.mem_map,
    Function.comp] at har
  obtain ⟨a, ha, hae⟩ := har
  refine ⟨a, ha, ?_, ?_, ?_, ?_⟩
  · rw [← hae]
    rfl
  · rw [← hae]
    rfl
  · rw [← hae]
    show round2 (movementOf db lo hi a.id) = 0
    rw [movementOf_eq_zero]
    exact hz
  · rw [← hae]
    show round2 (movementOf db lo hi a.id * (1 / 100)) = 0
    rw [movementOf_eq_zero, zero_mul]
    exact hz

def c6AR : AgentReport := ⟨1, 1, 0, 0⟩

theorem c6_eval : (computeDailyReport c6DB 0 10 0).agentReports = [c6AR] := by
  simp [computeDailyReport, agentsOf, agentReportOf, memberObjectIds,
    membersOf, movementOf_eq_zero, c6DB, c6Agent, c6Member, c6AR]
  norm_num [round2, round_eq]

theorem runDaily_agentReports_filter_never_matches_witness :
    c6AR ∈ (computeDailyReport c6DB 0 10 0).agentReports ∧
    c6AR.agent = c6Agent.id ∧
    c6AR.members = (memberObjectIds c6DB c6Agent.id).length ∧
    c6AR.creditMovement = 0 ∧ c6AR.commission = 0 := by
  have hmem : c6AR ∈ (computeDailyReport c6DB 0 10 0).agentReports := by
    rw [c6_eval]
    simp
  obtain ⟨a, ha, h1, h2, h3, h4⟩ :=
    runDaily_agentReports_filter_never_matches c6DB 0 10 0 c6AR hmem
  have hag : a = c6Agent := by
    have hx : a ∈ agentsOf c6DB := ha
    simp [agentsOf, c6DB, c6Agent, c6Member] at hx
    exact hx
  subst hag
  exact ⟨hmem, h1, h2, h3, h4⟩

theorem mem_upsertReport (r : DailyReport) (l : List DailyReport)
    (x : DailyReport) (hx : x ∈ upsertReport r l) : x = r ∨ x ∈ l := by
  induction l with
  | nil => simpa [upsertReport] using hx
  | cons y ys ih =>
      by_cases h : y.date = r.date
      · simp only [upsertReport, if_pos h, List.mem_cons] at hx
        rcases hx with h1 | h1
        · exact Or.inl h1
        · exact Or.inr (by simp [h1])
      · simp only [upsertReport, if_neg h, List.mem_cons] at hx
        rcases hx with h1 | h1
        · exact Or.inr (by simp [h1])
        · rcases ih h1 with h2 | h2
          · exact Or.inl h2
          · exact Or.inr (by simp [h2])

theorem filter_upsertReport (r : DailyReport) (l : List DailyReport)
    (h : (l.map DailyReport.date).Nodup) :
    (upsertReport r l).filter (fun x => x.date = r.date) = [r] := by
  induction l with
  | nil => simp [upsertReport]
  | cons y ys ih =>
      simp only [List.map_cons, List.nodup_cons] at h
      obtain ⟨hy, hys⟩ := h
      by_cases hd : y.date = r.date
      · have hnil : ys.filter (fun x => x.date = r.date) = [] := by
          rw [List.filter_eq_nil_iff]
          intro x hx hxe
          simp only [decide_eq_true_eq] at hxe
          apply hy
          rw [← hd] at hxe
          exact hxe ▸ List.mem_map_of_mem DailyReport.date hx
        simp [upsertReport, hd, List.filter_cons, hnil]
      · simp [upsertReport, hd, List.filter_cons, ih hys]

theorem upsertReport_dates_nodup (r : DailyReport) (l : List DailyReport)
    (h : (l.map DailyReport.date).Nodup) :
    ((upsertReport r l).map DailyReport.date).Nodup := by
  induction l with
  | nil => simp [upsertReport]
  | cons y ys ih =>
      simp only [List.map_cons, List.nodup_cons] at h
      obtain ⟨hy, hys⟩ := h
      by_cases hd : y.date = r.date
      · simp only [upsertReport, if_pos hd, List.map_cons, List.nodup_cons]
        exact ⟨by rw [← hd]; exact hy, hys⟩
      · simp only [upsertReport, if_neg hd, List.map_cons, List.nodup_cons]
        refine ⟨?_, ih hys⟩
        intro hmem
        rw [List.mem_map] at hmem
        obtain ⟨x, hx, hxd⟩ := hmem
        rcases mem_upsertReport r ys x hx with h1 | h1
        · exact hd (by rw [← hxd, h1])
        · exact hy (hxd ▸ List.mem_map_of_mem DailyReport.date h1)

theorem upsertReport_mem_date_eq (r : DailyReport) (l : List DailyReport)
    (h : (l.map DailyReport.date).Nodup) (x : DailyReport)
    (hx : x ∈ upsertReport r l) (hd : x.date = r.date) : x = r := by
  have hf := filter_upsertReport r l h
  have hm : x ∈ (upsertReport r l).filter (fun y => y.date = r.date) :=
    List.mem_filter.2 ⟨hx, by simp [hd]⟩
  rw [hf] at hm
  simpa using hm

/-- C7: running the daily job twice for the same day over an unchanged
transaction log leaves exactly one `DailyReport` for that date, and the
second run's report carries the same totals, member counts and per-agent
sub-reports as the first (only `systemNotes`, which embeds the run time,
differs).  The hypothesis is the schema's unique index on
`DailyReport.date`. -/
theorem runDaily_idempotent (db : DB) (lo hi n1 n2 : ℤ)
    (hn : (db.reports.map DailyReport.date).Nodup) :
    ((runDaily (runDaily db lo hi n1) lo hi n2).reports.filter
        (fun r => r.date = lo)).length = 1 ∧
    ∀ r1 ∈ (runDaily db lo hi n1).reports,
      ∀ r2 ∈ (runDaily (runDaily db lo hi n1) lo hi n2).reports,
        r1.date = lo → r2.date = lo →
        r1.totalMembers = r2.totalMembers ∧
        r1.activeMembers = r2.activeMembers ∧
        r1.totalCreditMovement = r2.totalCreditMovement ∧
        r1.totalCommission = r2.totalCommission ∧
        r1.agentReports = r2.agentReports := by
  have hn1 : (((runDaily db lo hi n1).reports).map DailyReport.date).Nodup :=
    upsertReport_dates_nodup _ _ hn
  constructor
  · have hdate : (computeDailyReport (runDaily db lo hi n1) lo hi n2).date = lo := rfl
    have hf := filter_upsertReport (computeDailyReport (runDaily db lo hi n1) lo hi n2)
      (runDaily db lo hi n1).reports hn1
    rw [hdate] at hf
    show ((upsertReport (computeDailyReport (runDaily db lo hi n1) lo hi n2)
        (runDaily db lo hi n1).reports).filter (fun r => r.date = lo)).length = 1
    rw [hf]
    rfl
  · intro r1 h1 r2 h2 hd1 hd2
    have he1 : r1 = computeDailyReport db lo hi n1 :=
      upsertReport_mem_date_eq (computeDailyReport db lo hi n1) db.reports hn r1 h1 hd1
    have he2 : r2 = computeDailyReport (runDaily db lo hi n1) lo hi n2 :=
      upsertReport_mem_date_eq (computeDailyReport (runDaily db lo hi n1) lo hi n2)
        (runDaily db lo hi n1).reports hn1 r2 h2 hd2
    subst he1
    subst he2
    exact ⟨rfl, rfl, rfl, rfl, rfl⟩

def w7DB : DB :=
  ⟨[⟨1, "a1", "agent", 100, none⟩, ⟨2, "m1", "member", 10, some 1⟩],
    [⟨2, 4, "add", 6, 10, 1, "w", 5⟩], [], []⟩

theorem runDaily_idempotent_witness :
    (w7DB.reports.map DailyReport.date).Nodup ∧
    ((runDaily (runDaily w7DB 0 10 1) 0 10 2).reports.filter
        (fun r => r.date = 0)).length = 1 := by
  have hn : (w7DB.reports.map DailyReport.date).Nodup := by simp [w7DB]
  exact ⟨hn, (runDaily_idempotent w7DB 0 10 1 2 hn).1⟩

/-- Leap-year count used for the `new Date(year, 0, day)` arithmetic:
number of leap years in `[1, y)` (proleptic Gregorian). -/
def leapCount (y : ℤ) : ℤ :=
  (y - 1).ediv 4 - (y - 1).ediv 100 + (y - 1).ediv 400

/-- Epoch day (days since 1970-01-01) of January 1 of the given year:
models the JS `Date` day arithmetic of `generateWeeklySummary`. -/
def jan1Epoch (y : ℤ) : ℤ :=
  365 * (y - 1970) + leapCount y - leapCount 1970

/-- JS `Date.prototype.getDay`: 0 = Sunday; epoch day 0 (1970-01-01) was a
Thursday. -/
def dayOfWeek (d : ℤ) : ℤ := (d + 4).emod 7

/-- The `summary` object of a non-empty weekly summary. -/
structure SummaryBody where
  totalCreditMovement : ℚ
  totalCommission : ℚ
  avgMembers : ℤ
  avgActiveMembers : ℤ
  deriving Repr, DecidableEq

/-- The value returned by `generateWeeklySummary`. -/
structure WeeklySummary where
  weekNumber : ℤ
  year : ℤ
  startDate : ℤ
  endDate : ℤ
  totalReports : Nat
  summary : Option SummaryBody
  deriving Repr, DecidableEq

/-- `generateWeeklySummary` of `src/services/reportService.js`: compute the
week span `new Date(year, 0, 1 + (week-1)*7)` snapped back to Monday
(`getDate() - getDay() + 1`), fetch the span's DailyReports; an empty span
returns `totalReports 0, summary null`; otherwise monetary totals are
`Math.round(x*100)/100` of the sums and the member averages are
`Math.round` of the means. -/
def generateWeeklySummary (db : DB) (year week : ℤ) : WeeklySummary :=
  let raw := jan1Epoch year + 7 * (week - 1)
  let firstDay := raw - dayOfWeek raw + 1
  let lastDay := firstDay + 6
  let reports := db.reports.filter (fun r => firstDay ≤ r.date ∧ r.date ≤ lastDay)
  if reports = [] then
    ⟨week, year, firstDay, lastDay, 0, none⟩
  else
    ⟨week, year, firstDay, lastDay, reports.length,
      some ⟨round2 ((reports.map DailyReport.totalCreditMovement).sum),
            round2 ((reports.map DailyReport.totalCommission).sum),
            round (((reports.map (fun r => (r.totalMembers : ℚ))).sum) /
              (reports.length : ℚ)),
            round (((reports.map (fun r => (r.activeMembers : ℚ))).sum) /
              (reports.length : ℚ))⟩⟩

/-- C9: when the computed week span holds zero stored DailyReports,
`generateWeeklySummary` returns `totalReports 0` and `summary none` — the
function is total, so no crash and (over exact rationals) no NaN; when at
least one report exists, the summary's monetary totals are exact 2-decimal
values (the `Math.round(x*100)/100` of the sums) and the member averages
are whole numbers (`Math.round` of the means, integer-valued by
construction). -/
theorem generateWeeklySummary_contract (db : DB) (year week : ℤ) :
    ((db.reports.filter (fun r =>
        jan1Epoch year + 7 * (week - 1) -
            dayOfWeek (jan1Epoch year + 7 * (week - 1)) + 1 ≤ r.date ∧
        r.date ≤ jan1Epoch year + 7 * (week - 1) -
            dayOfWeek (jan1Epoch year + 7 * (week - 1)) + 1 + 6)) = [] →
      (generateWeeklySummary db year week).totalReports = 0 ∧
      (generateWeeklySummary db year week).summary = none) ∧
    (∀ s, (generateWeeklySummary db year week).summary = some s →
      isMoney s.totalCreditMovement ∧ isMoney s.totalCommission) := by
  constructor
  · intro h
    simp only [generateWeeklySummary, h]
    exact ⟨rfl, rfl⟩
  · intro s hs
    by_cases h : (db.reports.filter (fun r =>
        jan1Epoch year + 7 * (week - 1) -
            dayOfWeek (jan1Epoch year + 7 * (week - 1)) + 1 ≤ r.date ∧
        r.date ≤ jan1Epoch year + 7 * (week - 1) -
            dayOfWeek (jan1Epoch year + 7 * (week - 1)) + 1 + 6)) = []
    · simp only [generateWeeklySummary, h] at hs
      exact absurd hs (by simp)
    · simp only [generateWeeklySummary, h] at hs
      simp only [if_false, Option.some.injEq] at hs
      subst hs
      exact ⟨isMoney_round2 _, isMoney_round2 _⟩

def w9DB : DB := ⟨[], [], [], []⟩

theorem generateWeeklySummary_contract_witness :
    (w9DB.reports.filter (fun r =>
        jan1Epoch 2024 + 7 * (5 - 1) -
            dayOfWeek (jan1Epoch 2024 + 7 * (5 - 1)) + 1 ≤ r.date ∧
        r.date ≤ jan1Epoch 2024 + 7 * (5 - 1) -
            dayOfWeek (jan1Epoch 2024 + 7 * (5 - 1)) + 1 + 6)) = [] ∧
    (generateWeeklySummary w9DB 2024 5).totalReports = 0 ∧
    (generateWeeklySummary w9DB 2024 5).summary = none := by
  have h : (w9DB.reports.filter (fun r =>
      jan1Epoch 2024 + 7 * (5 - 1) -
          dayOfWeek (jan1Epoch 2024 + 7 * (5 - 1)) + 1 ≤ r.date ∧
      r.date ≤ jan1Epoch 2024 + 7 * (5 - 1) -
          dayOfWeek (jan1Epoch 2024 + 7 * (5 - 1)) + 1 + 6)) = [] := by
    simp [w9DB]
  exact ⟨h, (generateWeeklySummary_contract w9DB 2024 5).1 h⟩
